import Mathlib

/-!
Shallow embedding of the goverify check-execution engine (Go).

Strings are modelled as `List Char`; Go `float64` values that hold decimal
coverage percentages are modelled as exact rationals `ℚ` (the claims are at
the first decimal digit, far above float rounding).  External processes and
the filesystem are modelled as explicit oracle parameters.
-/

/-- Convert a Lean string literal to the `List Char` representation used
throughout the model. -/
def gs (s : String) : List Char := s.toList

/-- Go `path.Split`: split after the final slash, returning `(dir, file)`
where `dir` keeps its trailing slash; `("", path)` when there is no slash. -/
def goPathSplit (p : List Char) : List Char × List Char :=
  let file := (p.reverse.takeWhile (fun c => c ≠ '/')).reverse
  (p.take (p.length - file.length), file)

/-- Pop logic of Go `path.Clean`'s `..` backtracking over the reversed output
buffer: drop the most recent char, continuing while the buffer stays longer
than `dotdot` and the char just dropped was not a slash. -/
def popToSlash (out : List Char) (dotdot : Nat) : List Char :=
  match out with
  | [] => []
  | d :: rest => if rest.length > dotdot ∧ d ≠ '/' then popToSlash rest dotdot else rest

/-- Main loop of Go `path.Clean` over the remaining input, carrying the
output buffer in reverse order and the `dotdot` barrier.  The `fuel`
argument only makes the recursion structural: every step consumes at least
one input character, so fuel equal to the input length never runs out. -/
def cleanLoop (rooted : Bool) : Nat → List Char → List Char → Nat → List Char
  | 0, _, out, _ => out
  | _, [], out, _ => out
  | fuel + 1, c :: rest, out, dotdot =>
    if c = '/' then
      cleanLoop rooted fuel rest out dotdot
    else if c = '.' ∧ (rest = [] ∨ rest.head? = some '/') then
      cleanLoop rooted fuel rest out dotdot
    else if c = '.' ∧ rest.head? = some '.' ∧ (rest.tail = [] ∨ rest.tail.head? = some '/') then
      if out.length > dotdot then
        cleanLoop rooted fuel rest.tail (popToSlash out dotdot) dotdot
      else if rooted = false then
        let out' := if out.length > 0 then '.' :: '.' :: '/' :: out else '.' :: '.' :: out
        cleanLoop rooted fuel rest.tail out' out'.length
      else
        cleanLoop rooted fuel rest.tail out dotdot
    else
      let out' := if (rooted = true ∧ out.length ≠ 1) ∨ (rooted = false ∧ out.length ≠ 0)
        then '/' :: out else out
      let seg := (c :: rest).takeWhile (fun x => x ≠ '/')
      cleanLoop rooted fuel ((c :: rest).dropWhile (fun x => x ≠ '/')) (seg.reverse ++ out') dotdot

/-- Go `path.Clean` (lexical path normalisation). -/
def goPathClean (p : List Char) : List Char :=
  if p = [] then gs "."
  else
    let rooted := decide (p.head? = some '/')
    let res :=
      if rooted then cleanLoop true p.length (p.drop 1) ['/'] 1
      else cleanLoop false p.length p [] 0
    if res = [] then gs "." else res.reverse

/-- Go `containsName`: walk the path from its final segment toward the root
(using `path.Split`/`path.Clean` exactly as the source does) and return true
as soon as a segment equals one of `searchIn`.  The `fuel` argument makes the
source's `for filename != "" && filename != "."` loop structural; each
iteration strictly shortens a relative path, so `containsName` below supplies
ample fuel (the Go loop itself would not terminate on a rooted path whose
segments never match; with exhausted fuel the model returns false). -/
def containsNameAux (searchIn : List (List Char)) : Nat → List Char → Bool
  | 0, _ => false
  | fuel + 1, filename =>
    if filename = [] ∨ filename = gs "." then false
    else
      let pr := goPathSplit filename
      if pr.2 ∈ searchIn then true
      else containsNameAux searchIn fuel (goPathClean pr.1)

/-- Go `containsName(filename, searchIn)`. -/
def containsName (filename : List Char) (searchIn : List (List Char)) : Bool :=
  containsNameAux searchIn (filename.length + 2) filename

/-- The list of segments the `containsName` loop visits, leaf first: the
same walk as `containsNameAux`, collecting each `subdir` instead of testing
membership. -/
def walkSegments : Nat → List Char → List (List Char)
  | 0, _ => []
  | fuel + 1, filename =>
    if filename = [] ∨ filename = gs "." then []
    else
      let pr := goPathSplit filename
      pr.2 :: walkSegments fuel (goPathClean pr.1)

/-- Go `eachFileLister` (the target lister spec). -/
structure eachFileLister where
  Cmd : List Char
  Args : List (List Char)
  IgnoreDir : List (List Char)
deriving DecidableEq, Repr

/-- Go `eachFileLister.filteredFilename`: true when the candidate target is
dropped (empty, or some walked segment is an ignored directory name). -/
def eachFileLister.filteredFilename (e : eachFileLister) (filename : List Char) : Bool :=
  if filename = [] then true
  else containsName filename e.IgnoreDir

/-- Go `strings.Split(s, sep)` for a one-character separator; like Go, the
result is never empty and keeps empty fields. -/
def splitOnChar (sep : Char) : List Char → List (List Char)
  | [] => [[]]
  | c :: rest =>
    match splitOnChar sep rest with
    | [] => [[]]
    | h :: t => if c = sep then [] :: h :: t else (c :: h) :: t

/-- Prefix test: `startsWithChars pre s` holds when `s` begins with `pre`. -/
def startsWithChars : List Char → List Char → Bool
  | [], _ => true
  | _ :: _, [] => false
  | p :: ps, c :: cs => p = c ∧ startsWithChars ps cs

/-- Go `strings.Contains(s, pat)`. -/
def containsChars (pat : List Char) : List Char → Bool
  | [] => startsWithChars pat []
  | c :: rest => startsWithChars pat (c :: rest) ∨ containsChars pat rest

/-- Character class `[0-9\.]` of the coverage pattern. -/
def isCoverDigit (c : Char) : Bool := ('0' ≤ c ∧ c ≤ '9') ∨ c = '.'

/-- One anchored attempt of the regexp `coverage: ([0-9\.]+)% of statements`:
if `s` starts with the literal `coverage: `, take the maximal run of
`[0-9.]` characters after it; the attempt succeeds iff that run is nonempty
and is followed by `% of statements` (the character class excludes `%`, so
no shorter run can succeed at this position). -/
def coverMatchAt (s : List Char) : Option (List Char) :=
  if startsWithChars (gs "coverage: ") s then
    let t := s.drop 10
    let run := t.takeWhile isCoverDigit
    if run ≠ [] ∧ startsWithChars (gs "% of statements") (t.dropWhile isCoverDigit) then
      some run
    else none
  else none

/-- Model of `pattern.FindStringSubmatch`: leftmost successful anchored attempt,
returning the captured digit run. -/
def findCoverMatch : List Char → Option (List Char)
  | [] => coverMatchAt []
  | c :: rest =>
    match coverMatchAt (c :: rest) with
    | some run => some run
    | none => findCoverMatch rest

/-- Numeric value of a digit list (most significant first). -/
def digitsToNat (ds : List Char) : Nat :=
  ds.foldl (fun n c => 10 * n + (c.toNat - '0'.toNat)) 0

/-- Go `strconv.ParseFloat` restricted to the `[0-9.]` alphabet the coverage
pattern can capture: defined iff the string has at least one digit and at
most one dot; the value is the exact decimal as a rational (the model does
not reproduce float64 rounding, which is far below the 0.009 epsilon for
percentages with few decimals). -/
def parseCoverFloat (s : List Char) : Option ℚ :=
  if (s.any (fun c => '0' ≤ c ∧ c ≤ '9')) ∧ s.count '.' ≤ 1 then
    let ip := s.takeWhile (fun c => c ≠ '.')
    let fp := (s.dropWhile (fun c => c ≠ '.')).drop 1
    some (Rat.divInt (digitsToNat ip * 10 ^ fp.length + digitsToNat fp) (10 ^ fp.length))
  else none

/-- Errors `coverageValidator.Check` can return: the `unable to find match`
parse failure, a `strconv.ParseFloat` failure, and `coverageError{seen,
required}`. -/
inductive coverErr where
  | unparsable (line : List Char)
  | badFloat (s : List Char)
  | below (seen required : ℚ)
deriving DecidableEq

/-- Go `coverageValidator` (the `validator` type-tag embed carries no data). -/
structure coverageValidator where
  RequiredCoverage : ℚ
  IgnoreDir : List (List Char)
deriving DecidableEq

instance {ε α : Type} [DecidableEq ε] [DecidableEq α] : DecidableEq (Except ε α) := fun
  | .ok a, .ok b =>
    if h : a = b then isTrue (by rw [h]) else isFalse (fun hh => h (Except.ok.inj hh))
  | .error a, .error b =>
    if h : a = b then isTrue (by rw [h]) else isFalse (fun hh => h (Except.error.inj hh))
  | .ok _, .error _ => isFalse (fun hh => Except.noConfusion hh)
  | .error _, .ok _ => isFalse (fun hh => Except.noConfusion hh)

/-- The per-line percentage extraction in `coverageValidator.Check`: a line
containing `[no test files]` counts as 0%, otherwise the regexp must match
and the captured run must parse. -/
def coverLineValue (line : List Char) : Except coverErr ℚ :=
  if containsChars (gs "[no test files]") line then .ok 0
  else
    match findCoverMatch line with
    | none => .error (.unparsable line)
    | some run =>
      match parseCoverFloat run with
      | none => .error (.badFloat run)
      | some q => .ok q

/-- The ignore-directory test of `coverageValidator.Check`: when the line
has more than one tab-separated field, walk the second field (`parts[1]`,
the package path) through `containsName` against the validator's ignored
directories. -/
def ignoredCoverLine (ignoreDirs : List (List Char)) (line : List Char) : Bool :=
  match splitOnChar '\t' line with
  | _ :: p1 :: _ => containsName p1 ignoreDirs
  | _ => false

/-- The line loop of `coverageValidator.Check`: empty lines are skipped; a
parse error returns immediately (before the ignore-directory test); a line
whose second tab-separated field walks through an ignored directory is then
skipped; finally `seen + 0.009 <= required` fails with `seen`/`required`
preserved. -/
def coverCheckLines (c : coverageValidator) : List (List Char) → Option coverErr
  | [] => none
  | line :: rest =>
    if line = [] then coverCheckLines c rest
    else
      match coverLineValue line with
      | .error e => some e
      | .ok pct =>
        if ignoredCoverLine c.IgnoreDir line then coverCheckLines c rest
        else if pct + 9 / 1000 ≤ c.RequiredCoverage then
          some (.below pct c.RequiredCoverage)
        else coverCheckLines c rest

/-- Go `coverageValidator.Check(stdout, stderr)`; `stderr` is taken to
mirror the `cmdValidator` signature and is never read. -/
def coverageValidator.Check (c : coverageValidator) (stdout stderr : List Char) :
    Option coverErr :=
  coverCheckLines c (splitOnChar '\n' stdout)

/-- Go `nonEmptyStr`. -/
def nonEmptyStr (s1 s2 : List Char) : List Char :=
  if s1 = [] then s2 else s1

/-- Go `nonEmptyStrArr`. -/
def nonEmptyStrArr (s1 s2 : List (List Char)) : List (List Char) :=
  if s1.length = 0 then s2 else s1

/-- Go `checkCmd` (a sub-command spec: command name + argument template). -/
structure checkCmd where
  Cmd : List Char
  Args : List (List Char)
deriving DecidableEq, Repr

/-- Go `mergeCheckCmd`: nil yields the other; otherwise merge field by
field, non-empty wins. -/
def mergeCheckCmd (c1 c2 : Option checkCmd) : Option checkCmd :=
  match c1, c2 with
  | none, c2 => c2
  | c1, none => c1
  | some a, some b => some ⟨nonEmptyStr a.Cmd b.Cmd, nonEmptyStrArr a.Args b.Args⟩

/-- Go `mergeEachFileLister`: nil yields the other; otherwise merge field by
field, non-empty wins. -/
def mergeEachFileLister (e1 e2 : Option eachFileLister) : Option eachFileLister :=
  match e1, e2 with
  | none, e2 => e2
  | e1, none => e1
  | some a, some b =>
    some ⟨nonEmptyStr a.Cmd b.Cmd, nonEmptyStrArr a.Args b.Args,
      nonEmptyStrArr a.IgnoreDir b.IgnoreDir⟩

/-- The recognized keys of the raw `validate` JSON sub-document
(`c.Validator` is the raw message in Go); `none` in a field models an absent
key, which `json.Unmarshal` leaves untouched in the destination. -/
structure validatorJson where
  type : Option (List Char)
  coverage : Option ℚ
  ignoreDir : Option (List (List Char))
  ignoreMsg : Option (List (List Char))
  ignoreOutput : Option Bool
deriving DecidableEq

/-- The decoded `cmdValidator`: `emptyV` is Go's `emptyValidator` (plain
output / return-code-only), `coverV` is Go's `coverageValidator`. -/
inductive cmdValidator where
  | emptyV (IgnoreMsg : List (List Char)) (IgnoreAllOutput : Bool)
  | coverV (v : coverageValidator)
deriving DecidableEq

/-- Go `check` (a CheckSpec).  `Validator` is the raw `validate` JSON
message; `validateDecoded` is the decoded validator attached during
resolution. -/
structure check where
  Name : List Char
  Cmd : List Char
  Fix : Option checkCmd
  Check : Option checkCmd
  Install : Option checkCmd
  Gotool : List Char
  Godep : Option Bool
  Macro : List Char
  Each : Option eachFileLister
  Validator : Option validatorJson
  validateDecoded : Option cmdValidator
deriving DecidableEq

/-- Go `goverify.getValidator`: decode the raw validator configuration by
its `type` tag into the matching validator, starting from that variant's
zero/default fields (for `returncode`, `IgnoreAllOutput` starts true).
Unmarshal errors cannot arise in the model (the configuration is already
structured). -/
def getValidator (c : check) : cmdValidator :=
  match c.Validator with
  | none => .emptyV [] false
  | some v =>
    if v.type.getD [] = gs "cover" then
      .coverV ⟨v.coverage.getD 0, v.ignoreDir.getD []⟩
    else if v.type.getD [] = gs "returncode" then
      .emptyV (v.ignoreMsg.getD []) (v.ignoreOutput.getD true)
    else
      .emptyV (v.ignoreMsg.getD []) (v.ignoreOutput.getD false)

/-- Go `cmdValidator.MergePropertiesFrom(val)` for both variants:
`emptyValidator` layers only `ignoreMsg` (non-empty wins);
`coverageValidator` takes `coverage` when the layered value is non-zero and
layers `ignoreDir` (non-empty wins). -/
def cmdValidator.MergePropertiesFrom (c : cmdValidator) (val : Option validatorJson) :
    cmdValidator :=
  match val with
  | none => c
  | some o =>
    match c with
    | .emptyV msgs allOut => .emptyV (nonEmptyStrArr (o.ignoreMsg.getD []) msgs) allOut
    | .coverV cv =>
      let req := if o.coverage.getD 0 ≠ 0 then o.coverage.getD 0 else cv.RequiredCoverage
      .coverV ⟨req, nonEmptyStrArr (o.ignoreDir.getD []) cv.IgnoreDir⟩

/-- The type assertion `c.validateDecoded.(*emptyValidator)` in
`check.mergePropertiesFrom`: true iff the decoded validator is an
`emptyValidator`, whatever its fields. -/
def isEmptyValidatorKind : Option cmdValidator → Bool
  | some (.emptyV _ _) => true
  | _ => false

/-- Go `check.mergePropertiesFrom(macroDef)`: fill every unset field from
the macro (non-empty wins), merge the sub-command specs and the lister
field by field, and clear the decoded validator when it is an
`emptyValidator` (so `copyFromMacro` re-resolves it from the macro). -/
def check.mergePropertiesFrom (c : check) (macroDef : check) : check :=
  { c with
    Name := nonEmptyStr c.Name macroDef.Name
    Cmd := nonEmptyStr c.Cmd macroDef.Cmd
    Fix := mergeCheckCmd c.Fix macroDef.Fix
    Check := mergeCheckCmd c.Check macroDef.Check
    Install := mergeCheckCmd c.Install macroDef.Install
    Gotool := nonEmptyStr c.Gotool macroDef.Gotool
    Godep := match c.Godep with | none => macroDef.Godep | some b => some b
    Each := mergeEachFileLister c.Each macroDef.Each
    validateDecoded := if isEmptyValidatorKind c.validateDecoded then none
      else c.validateDecoded }

/-- Go `goverify.copyFromMacro`: look the referenced macro up (error when
absent), merge its properties in, and — when the merge left the decoded
validator unset — use the macro's decoded validator as the base and layer
the check's raw validator configuration on top. -/
def copyFromMacro (macroMap : List Char → Option check) (c : check) :
    Except (List Char) check :=
  match macroMap c.Macro with
  | none => .error (gs "unable to find macro " ++ c.Macro)
  | some existingMacro =>
    let c1 := c.mergePropertiesFrom existingMacro
    if c1.validateDecoded = none then
      .ok { c1 with
            validateDecoded :=
              some ((getValidator existingMacro).MergePropertiesFrom c1.Validator) }
    else .ok c1

/-- The per-check resolution prologue of `goverify.main`: decode the
check's own validator, then resolve the macro reference when one is named.
(The later overwrite of a coverage validator's `IgnoreDir` with the global
ignore list is a separate step of `main`, modelled by
`applyGlobalIgnoreDir`.) -/
def mainResolveCheck (macroMap : List Char → Option check) (c : check) :
    Except (List Char) check :=
  let c1 := { c with validateDecoded := some (getValidator c) }
  if c.Macro ≠ [] then copyFromMacro macroMap c1 else .ok c1

/-- The `cover.IgnoreDir = conf.IgnoreDir` step of `goverify.main`. -/
def applyGlobalIgnoreDir (globalIgnore : List (List Char)) (c : check) : check :=
  match c.validateDecoded with
  | some (.coverV cv) =>
    { c with validateDecoded := some (.coverV { cv with IgnoreDir := globalIgnore }) }
  | _ => c

/-- Validator rejections (`OutputError` variants). -/
inductive valErr where
  | nonEmptyStderr
  | unexpectedOutput
  | cover (e : coverErr)
deriving DecidableEq

/-- Go `cmdValidator.Check(stdout, stderr)` for both variants.  Go
`emptyValidator.Check` accepts everything when `IgnoreAllOutput`; otherwise
rejects a non-empty stderr, then rejects the first non-empty stdout line
that contains none of the ignorable substrings. -/
def cmdValidator.Check : cmdValidator → List Char → List Char → Option valErr
  | .emptyV msgs allOut, stdout, stderr =>
    if allOut then none
    else if stderr.length > 0 then some .nonEmptyStderr
    else if (splitOnChar '\n' stdout).any
        (fun line => line ≠ [] ∧ msgs.all (fun ig => ¬ (containsChars ig line = true))) then
      some .unexpectedOutput
    else none
  | .coverV cv, stdout, stderr => (cv.Check stdout stderr).map .cover

/-- The observable outcome of launching one external process: the captured
buffers and, when the process itself failed, Go's non-nil `error`. -/
structure RunOutcome where
  stdout : List Char
  stderr : List Char
  procErr : Option (List Char)
deriving DecidableEq

/-- The `originalErr` causes a `checkResult` can carry. -/
inductive goErr where
  | procError (msg : List Char)
  | valError (e : valErr)
  | listerError (output : List Char) (msg : List Char)
deriving DecidableEq

/-- Go `checkResult`. -/
structure checkResult where
  checkName : List Char
  output : List Char
  originalErr : Option goErr
deriving DecidableEq

/-- Argument-template selection in `goverify.innerCheckIteration`: the `fix`
template when fix mode is on and one exists, else the `check` template.  (Go
nil-dereferences when the selected spec is absent; the model reads an empty
template, and claims about this path assume the spec is present.) -/
def selTemplateArgs (fixMode : Bool) (c : check) : List (List Char) :=
  if fixMode ∧ c.Fix.isSome then ((c.Fix.getD ⟨[], []⟩).Args)
  else ((c.Check.getD ⟨[], []⟩).Args)

/-- The `$1` substitution loop: an element exactly equal to `$1` becomes the
target value; every other element is untouched. -/
def substArgs (args : List (List Char)) (param : List Char) : List (List Char) :=
  args.map fun a => if a = gs "$1" then param else a

/-- Command routing in `goverify.innerCheckIteration`: when the check's
`godep` flag is set and the `Godeps` marker directory exists in the run
root (`godepDir`), run `godep` with the literal `go` prepended to the
arguments; otherwise run the check's own command. -/
def routedInvocation (godepDir : Bool) (c : check) (args : List (List Char)) :
    List Char × List (List Char) :=
  if c.Godep = some true ∧ godepDir then (gs "godep", gs "go" :: args)
  else (c.Cmd, args)

/-- Go `goverify.innerCheckIteration` for one target, with the external
process modelled by the oracle `run` from the resolved command line to its
outcome: substitute the target into the selected template, route through
godep when applicable, launch, and classify — a process error bypasses the
validator; otherwise the decoded validator judges the captured buffers. -/
def innerCheckIteration (fixMode godepDir : Bool)
    (run : List Char → List (List Char) → RunOutcome) (c : check) (param : List Char) :
    checkResult :=
  let args := substArgs (selTemplateArgs fixMode c) param
  let ci := routedInvocation godepDir c args
  let out := run ci.1 ci.2
  let output := out.stdout ++ out.stderr
  match out.procErr with
  | some e => { checkName := [], output := output, originalErr := some (.procError e) }
  | none =>
    match (c.validateDecoded.getD (.emptyV [] false)).Check out.stdout out.stderr with
    | some ve => { checkName := [], output := output, originalErr := some (.valError ve) }
    | none => { checkName := [], output := output, originalErr := none }

/-- The worker-loop body of `goverify.runCheck` for one target, with the two
possible process launches supplied per attempt (`runs 0` backs the first
attempt, `runs 1` the retry): run once, and when fix mode is on, the check
has a `fix` template and the first attempt failed, run exactly once more;
the last attempt's result is emitted. -/
def workerIteration (fixMode godepDir : Bool)
    (runs : Nat → List Char → List (List Char) → RunOutcome) (c : check)
    (param : List Char) : checkResult :=
  let checkRes := innerCheckIteration fixMode godepDir (runs 0) c param
  if fixMode ∧ c.Fix.isSome ∧ checkRes.originalErr.isSome then
    innerCheckIteration fixMode godepDir (runs 1) c param
  else checkRes

/-- The sequence of attempts `workerIteration` performs for one target, in
order; its final element is the emitted result. -/
def workerAttempts (fixMode godepDir : Bool)
    (runs : Nat → List Char → List (List Char) → RunOutcome) (c : check)
    (param : List Char) : List checkResult :=
  let checkRes := innerCheckIteration fixMode godepDir (runs 0) c param
  if fixMode ∧ c.Fix.isSome ∧ checkRes.originalErr.isSome then
    [checkRes, innerCheckIteration fixMode godepDir (runs 1) c param]
  else [checkRes]

/-- Go `goverify.getParams` after a successful lister run: split the
captured stdout into lines and keep those the lister's filter does not
drop. -/
def getParams (e : eachFileLister) (listerStdout : List Char) : List (List Char) :=
  (splitOnChar '\n' listerStdout).filter (fun file => ¬ (e.filteredFilename file = true))

/-- Go `goverify.runCheck`, target-indexed: with a lister, a lister failure
yields the single synthetic result carrying that failure (its output field
is left zero, as in the source); otherwise one result per enumerated
target, in enumeration order (the live channel interleaves completions, but
emits exactly these results).  Without a lister the single implicit target
is `.`. -/
def runCheckResults (fixMode godepDir : Bool)
    (runs : Nat → List Char → List (List Char) → RunOutcome) (c : check)
    (listerOut : RunOutcome) : List checkResult :=
  match c.Each with
  | some e =>
    match listerOut.procErr with
    | some err =>
      [{ checkName := [], output := [],
         originalErr := some (.listerError (listerOut.stdout ++ listerOut.stderr) err) }]
    | none =>
      (getParams e listerOut.stdout).map
        (fun param => workerIteration fixMode godepDir runs c param)
  | none => [workerIteration fixMode godepDir runs c (gs ".")]

/-- The drain loop of `goverify.checkStream` over the result stream (in
arrival order): remember the error of every failing result as it passes,
and return the last one (nil when every result succeeded). -/
def checkStream (results : List checkResult) : Option goErr :=
  results.foldl
    (fun lastError checkRes =>
      match checkRes.originalErr with
      | some e => some e
      | none => lastError)
    none

/-! ## Concrete fixtures for witnesses and counterexamples -/

/-- A check that leaves most fields for its macro to fill. -/
def cMergeEx : check :=
  { Name := [], Cmd := gs "mycmd", Fix := some ⟨[], [gs "-w", gs "$1"]⟩, Check := none,
    Install := none, Gotool := [], Godep := none, Macro := gs "m", Each := none,
    Validator := none, validateDecoded := none }

/-- A macro definition providing values for unset fields of `cMergeEx`. -/
def mMergeEx : check :=
  { Name := gs "macro name", Cmd := gs "macrocmd",
    Fix := some ⟨gs "fixcmd", [gs "shadowed"]⟩, Check := some ⟨[], [gs "-l"]⟩,
    Install := none, Gotool := gs "vet", Godep := some true, Macro := [], Each := none,
    Validator := none, validateDecoded := none }

/-- Macro mapping holding `mMergeEx` under the name `m`. -/
def macroMapMergeEx : List Char → Option check :=
  fun n => if n = gs "m" then some mMergeEx else none

/-- A check declaring its own `returncode` validator and referencing macro
`m`. -/
def cReturncodeEx : check :=
  { Name := [], Cmd := [], Fix := none, Check := none, Install := none, Gotool := [],
    Godep := none, Macro := gs "m", Each := none,
    Validator := some ⟨some (gs "returncode"), none, none, none, none⟩,
    validateDecoded := none }

/-- A check declaring no validator at all and referencing macro `m`. -/
def cNoValEx : check :=
  { Name := [], Cmd := [], Fix := none, Check := none, Install := none, Gotool := [],
    Godep := none, Macro := gs "m", Each := none, Validator := none,
    validateDecoded := none }

/-- A macro with a coverage validator requiring 50%. -/
def mCoverEx : check :=
  { Name := gs "code coverage", Cmd := gs "go", Fix := none,
    Check := some ⟨[], [gs "test", gs "-cover"]⟩, Install := none, Gotool := [],
    Godep := none, Macro := [], Each := none,
    Validator := some ⟨some (gs "cover"), some 50, none, none, none⟩,
    validateDecoded := none }

/-- Macro mapping holding `mCoverEx` under the name `m`. -/
def macroMapCoverEx : List Char → Option check :=
  fun n => if n = gs "m" then some mCoverEx else none

/-- A godep-flagged check whose own command is `gofmt`, not `go`. -/
def cGodepEx : check :=
  { Name := [], Cmd := gs "gofmt", Fix := none, Check := some ⟨[], [gs "-l", gs "$1"]⟩,
    Install := none, Gotool := [], Godep := some true, Macro := [], Each := none,
    Validator := none, validateDecoded := none }

/-- A listerless check. -/
def cNoEachEx : check :=
  { Name := [], Cmd := gs "gofmt", Fix := none, Check := some ⟨[], [gs "-l", gs "$1"]⟩,
    Install := none, Gotool := [], Godep := none, Macro := [], Each := none,
    Validator := none, validateDecoded := none }

/-- A process oracle whose every invocation succeeds with empty output. -/
def runsOkEx : Nat → List Char → List (List Char) → RunOutcome :=
  fun _ _ _ => ⟨[], [], none⟩

/-- A check with both a `fix` template and a lister. -/
def cFixEx : check :=
  { Name := [], Cmd := gs "gofmt", Fix := some ⟨[], [gs "-w", gs "$1"]⟩,
    Check := some ⟨[], [gs "-l", gs "$1"]⟩, Install := none, Gotool := [], Godep := none,
    Macro := [], Each := some ⟨gs "git", [gs "ls-files"], []⟩, Validator := none,
    validateDecoded := none }

/-- A process oracle failing the first attempt of every target and
succeeding on the retry. -/
def runsFailOnceEx : Nat → List Char → List (List Char) → RunOutcome :=
  fun n _ _ => if n = 0 then ⟨[], [], some (gs "exit status 1")⟩ else ⟨[], [], none⟩

example : goPathClean (gs "testing/abcd/") = gs "testing/abcd" := by decide
example : goPathClean (gs "a//b/../c/") = gs "a/c" := by decide
example : goPathClean (gs "") = gs "." := by decide
example : goPathClean (gs "../") = gs ".." := by decide
example : goPathClean (gs "/a/") = gs "/a" := by decide
example : goPathClean (gs "./") = gs "." := by decide

example : containsName (gs "testing/abcd/test.go") [gs "abcd"] = true := by decide
example : containsName (gs "testing/abcde/test.go") [gs "abcd"] = false := by decide
example :
    walkSegments 22 (gs "testing/abcd/test.go") = [gs "test.go", gs "abcd", gs "testing"] := by
  decide

example : coverLineValue (gs "pkg\t[no test files]") = .ok 0 := by decide

set_option maxRecDepth 10000 in
example :
    coverLineValue
      (gs "ok  \tgithub.com/signalfx/metricproxy\t0.052s\tcoverage: 100.0% of statements") =
      .ok 100 := by decide

example :
    coverLineValue (gs "ok\tpkg\t0.05s\tcoverage: 9.1% of statements") =
      .ok (Rat.divInt 91 10) := by decide

/-! ## Helper lemmas -/

/-- The membership test of `containsNameAux` against the segments collected
by `walkSegments`, for any fuel. -/
theorem containsNameAux_iff_walkSegments (searchIn : List (List Char)) (fuel : Nat)
    (p : List Char) :
    containsNameAux searchIn fuel p = true ↔
      ∃ s ∈ walkSegments fuel p, s ∈ searchIn := by
  induction fuel generalizing p with
  | zero => simp [containsNameAux, walkSegments]
  | succ n ih =>
    by_cases h : p = [] ∨ p = gs "."
    · simp [containsNameAux, walkSegments, h]
    · by_cases hmem : (goPathSplit p).2 ∈ searchIn
      · simp [containsNameAux, walkSegments, h, hmem]
      · simp [containsNameAux, walkSegments, h, hmem, ih]

/-- Splitting on a separator that does not occur yields the single original
string, as in Go. -/
theorem splitOnChar_eq_singleton (sep : Char) (l : List Char) (h : sep ∉ l) :
    splitOnChar sep l = [l] := by
  induction l with
  | nil => rfl
  | cons c rest ih =>
    have hc : ¬ c = sep := fun hh => h (hh ▸ List.mem_cons_self c rest)
    have hr : sep ∉ rest := fun hh => h (List.mem_cons_of_mem c hh)
    simp [splitOnChar, ih hr, hc]

/-- Evaluation of `coverCheckLines` on a parsed, non-ignored head line: the threshold test
decides the outcome. -/
theorem coverCheckLines_cons_retained (c : coverageValidator) (line : List Char)
    (rest : List (List Char)) (S : ℚ) (h0 : line ≠ [])
    (h1 : coverLineValue line = .ok S)
    (h2 : ignoredCoverLine c.IgnoreDir line = false) :
    coverCheckLines c (line :: rest) =
      if S + 9 / 1000 ≤ c.RequiredCoverage then some (.below S c.RequiredCoverage)
      else coverCheckLines c rest := by
  simp [coverCheckLines, h0, h1, h2]

/-- Evaluation of `coverCheckLines` on a parsed head line whose path is ignored: the line
is skipped. -/
theorem coverCheckLines_cons_ignored (c : coverageValidator) (line : List Char)
    (rest : List (List Char)) (S : ℚ) (h0 : line ≠ [])
    (h1 : coverLineValue line = .ok S)
    (h2 : ignoredCoverLine c.IgnoreDir line = true) :
    coverCheckLines c (line :: rest) = coverCheckLines c rest := by
  simp [coverCheckLines, h0, h1, h2]

/-- Evaluation of `coverCheckLines` on an unparsable head line: the parse error returns
immediately, before the ignore-directory test. -/
theorem coverCheckLines_cons_error (c : coverageValidator) (line : List Char)
    (rest : List (List Char)) (e : coverErr) (h0 : line ≠ [])
    (h1 : coverLineValue line = .error e) :
    coverCheckLines c (line :: rest) = some e := by
  simp [coverCheckLines, h0, h1]

/-- Arithmetic side condition: a zero seen value plus the epsilon reaches `9/1000`. -/
theorem ratFact_zero_below : (0 : ℚ) + 9 / 1000 ≤ 9 / 1000 := by norm_num

/-- Arithmetic side condition: `99 + 0.009 ≤ 100`. -/
theorem ratFact_99_below_100 : (99 : ℚ) + 9 / 1000 ≤ 100 := by norm_num

/-- Arithmetic side condition: `100 + 0.009 > 10`. -/
theorem ratFact_100_above_10 : ¬ ((100 : ℚ) + 9 / 1000 ≤ 10) := by norm_num

/-! ## Claim theorems -/

/-- C8: directory-fragment exclusion is segment-exact — `containsName` holds
iff some segment of the leaf-to-root walk (`walkSegments`) is exactly one of
the fragments; `testing/abcd/test.go` is excluded by fragment `abcd`,
`testing/abcde/test.go` is not, and the empty path is always excluded. -/
theorem containsName_segment_exact :
    (∀ (searchIn : List (List Char)) (fuel : Nat) (p : List Char),
        containsNameAux searchIn fuel p = true ↔
          ∃ s ∈ walkSegments fuel p, s ∈ searchIn) ∧
    (∀ (p : List Char) (searchIn : List (List Char)),
        containsName p searchIn = true ↔
          ∃ s ∈ walkSegments (p.length + 2) p, s ∈ searchIn) ∧
    (∀ e : eachFileLister, e.filteredFilename [] = true) ∧
    eachFileLister.filteredFilename ⟨[], [], [gs "abcd"]⟩ (gs "testing/abcd/test.go") = true ∧
    eachFileLister.filteredFilename ⟨[], [], [gs "abcd"]⟩ (gs "testing/abcde/test.go") = false ∧
    walkSegments ((gs "testing/abcd/test.go").length + 2) (gs "testing/abcd/test.go") =
      [gs "test.go", gs "abcd", gs "testing"] := by
  refine ⟨containsNameAux_iff_walkSegments, ?_, ?_, by decide, by decide, by decide⟩
  · intro p searchIn
    exact containsNameAux_iff_walkSegments searchIn (p.length + 2) p
  · intro e
    rfl

/-- C9: the coverage validator's verdict never depends on stderr — `Check`
returns the same result for any two stderr contents. -/
theorem coverage_check_stderr_independent (c : coverageValidator)
    (stdout s1 s2 : List Char) :
    coverageValidator.Check c stdout s1 = coverageValidator.Check c stdout s2 := rfl

/-- C1 (counterexample): with required coverage `0.009` and a line reporting
`0%`, the code fails even though `seen + 0.009 < required` is FALSE (the
boundary `seen + 0.009 = required` fails, because the source comparison is
`<=`, not `<`). -/
theorem coverage_boundary_counterexample :
    coverageValidator.Check ⟨9 / 1000, []⟩ (gs "coverage: 0% of statements") [] =
      some (.below 0 (9 / 1000)) ∧
    (0 : ℚ) + 9 / 1000 = 9 / 1000 ∧
    ¬ ((0 : ℚ) + 9 / 1000 < 9 / 1000) := by
  refine ⟨?_, by norm_num, by norm_num⟩
  have h0 : gs "coverage: 0% of statements" ≠ [] := by decide
  have h1 : coverLineValue (gs "coverage: 0% of statements") = .ok 0 := by decide
  have h2 : ignoredCoverLine ([] : List (List Char)) (gs "coverage: 0% of statements") =
      false := by decide
  have hs : splitOnChar '\n' (gs "coverage: 0% of statements") =
      [gs "coverage: 0% of statements"] :=
    splitOnChar_eq_singleton _ _ (by decide)
  show coverCheckLines _ (splitOnChar '\n' _) = _
  rw [hs, coverCheckLines_cons_retained ⟨9 / 1000, []⟩ _ [] 0 h0 h1 h2,
    if_pos ratFact_zero_below]

/-- C1 (amended): on a retained (non-empty, parsed, non-ignored) single
coverage line reporting `S`, `Check` fails with `seen = S` and
`required = R` preserved exactly when `S + 0.009 ≤ R` (the boundary case
included), and succeeds whenever `S ≥ R`. -/
theorem coverage_threshold_check (c : coverageValidator) (stderr line : List Char) (S : ℚ)
    (hnl : '\n' ∉ line) (h0 : line ≠ [])
    (h1 : coverLineValue line = .ok S)
    (h2 : ignoredCoverLine c.IgnoreDir line = false) :
    (S + 9 / 1000 ≤ c.RequiredCoverage →
      coverageValidator.Check c line stderr = some (.below S c.RequiredCoverage)) ∧
    (¬ (S + 9 / 1000 ≤ c.RequiredCoverage) →
      coverageValidator.Check c line stderr = none) ∧
    (S ≥ c.RequiredCoverage → coverageValidator.Check c line stderr = none) := by
  have hs := splitOnChar_eq_singleton '\n' line hnl
  have hbase : coverageValidator.Check c line stderr =
      if S + 9 / 1000 ≤ c.RequiredCoverage then some (.below S c.RequiredCoverage)
      else none := by
    show coverCheckLines _ (splitOnChar '\n' _) = _
    rw [hs, coverCheckLines_cons_retained c _ [] S h0 h1 h2]
    rfl
  refine ⟨fun h => ?_, fun h => ?_, fun h => ?_⟩
  · rw [hbase, if_pos h]
  · rw [hbase, if_neg h]
  · rw [hbase, if_neg (by linarith)]

/-- Witness for `coverage_threshold_check` at two concrete lines: `99.0%`
against a 100% threshold fails with the values preserved; `100.0%` against a
10% threshold passes. -/
theorem coverage_threshold_check_witness :
    coverageValidator.Check ⟨100, []⟩ (gs "coverage: 99.0% of statements") [] =
      some (.below 99 100) ∧
    coverageValidator.Check ⟨10, []⟩ (gs "coverage: 100.0% of statements") [] = none :=
  ⟨(coverage_threshold_check ⟨100, []⟩ [] (gs "coverage: 99.0% of statements") 99
      (by decide) (by decide) (by decide) (by decide)).1 ratFact_99_below_100,
   (coverage_threshold_check ⟨10, []⟩ [] (gs "coverage: 100.0% of statements") 100
      (by decide) (by decide) (by decide) (by decide)).2.1 ratFact_100_above_10⟩

set_option maxRecDepth 10000 in
/-- C2 (counterexample): a line whose tab path walks through an ignored
directory but which matches neither the percentage pattern nor the
`[no test files]` marker is NOT skipped — the parse error fires before the
ignore-directory test, so the line does contribute a result. -/
theorem ignored_unparsable_line_counterexample :
    ignoredCoverLine [gs "vendor"] (gs "ok\tvendor/a.go\tgarbage") = true ∧
    coverageValidator.Check ⟨50, [gs "vendor"]⟩ (gs "ok\tvendor/a.go\tgarbage") [] =
      some (.unparsable (gs "ok\tvendor/a.go\tgarbage")) := by
  constructor <;> decide

/-- C2 (amended): a line with a tab-delimited path matching an ignored
directory fragment is skipped entirely — no below-threshold failure —
provided the line parses (percentage pattern or the no-test-files marker);
an unparsable line errors regardless of its path. -/
theorem ignored_parsed_line_skipped (c : coverageValidator) (stderr line : List Char)
    (rest : List (List Char)) (S : ℚ)
    (h0 : line ≠ []) (h1 : coverLineValue line = .ok S)
    (h2 : ignoredCoverLine c.IgnoreDir line = true) :
    coverCheckLines c (line :: rest) = coverCheckLines c rest ∧
    ('\n' ∉ line → coverageValidator.Check c line stderr = none) := by
  refine ⟨coverCheckLines_cons_ignored c line rest S h0 h1 h2, fun hnl => ?_⟩
  show coverCheckLines _ (splitOnChar '\n' _) = _
  rw [splitOnChar_eq_singleton '\n' line hnl,
    coverCheckLines_cons_ignored c line [] S h0 h1 h2]
  rfl

set_option maxRecDepth 10000 in
/-- Witness for `ignored_parsed_line_skipped`: a `1.0%` line for an ignored
`vendor` path passes a 100% threshold untouched. -/
theorem ignored_parsed_line_skipped_witness :
    coverageValidator.Check ⟨100, [gs "vendor"]⟩
      (gs "ok\tvendor/a.go\t0.05s\tcoverage: 1.0% of statements") [] = none :=
  (ignored_parsed_line_skipped ⟨100, [gs "vendor"]⟩ []
      (gs "ok\tvendor/a.go\t0.05s\tcoverage: 1.0% of statements") [] 1
      (by decide) (by decide) (by decide)).2 (by decide)

/-- C3: macro-to-check merging is non-empty-wins per field — each scalar
field of the merged check equals the check's own value when non-empty and
the macro's otherwise; the `fix`/`check`/`install` sub-command specs and the
lister are merged field by field by the same rule, not replaced wholesale;
and `copyFromMacro` applies exactly this merge (touching only the decoded
validator besides it) when the referenced macro exists. -/
theorem merge_non_empty_wins (c m : check) :
    ((c.mergePropertiesFrom m).Name = if c.Name = [] then m.Name else c.Name) ∧
    ((c.mergePropertiesFrom m).Cmd = if c.Cmd = [] then m.Cmd else c.Cmd) ∧
    ((c.mergePropertiesFrom m).Gotool = if c.Gotool = [] then m.Gotool else c.Gotool) ∧
    ((c.mergePropertiesFrom m).Godep = if c.Godep = none then m.Godep else c.Godep) ∧
    (∀ f g, c.Fix = some f → m.Fix = some g →
      (c.mergePropertiesFrom m).Fix =
        some ⟨if f.Cmd = [] then g.Cmd else f.Cmd,
          if f.Args = [] then g.Args else f.Args⟩) ∧
    (∀ f g, c.Check = some f → m.Check = some g →
      (c.mergePropertiesFrom m).Check =
        some ⟨if f.Cmd = [] then g.Cmd else f.Cmd,
          if f.Args = [] then g.Args else f.Args⟩) ∧
    (∀ f g, c.Install = some f → m.Install = some g →
      (c.mergePropertiesFrom m).Install =
        some ⟨if f.Cmd = [] then g.Cmd else f.Cmd,
          if f.Args = [] then g.Args else f.Args⟩) ∧
    (∀ e1 e2, c.Each = some e1 → m.Each = some e2 →
      (c.mergePropertiesFrom m).Each =
        some ⟨if e1.Cmd = [] then e2.Cmd else e1.Cmd,
          if e1.Args = [] then e2.Args else e1.Args,
          if e1.IgnoreDir = [] then e2.IgnoreDir else e1.IgnoreDir⟩) ∧
    (c.Fix = none → (c.mergePropertiesFrom m).Fix = m.Fix) ∧
    (m.Fix = none → (c.mergePropertiesFrom m).Fix = c.Fix) ∧
    (∀ macroMap : List Char → Option check, macroMap c.Macro = some m →
      ∃ r, copyFromMacro macroMap c = .ok r ∧
        r.Name = (c.mergePropertiesFrom m).Name ∧
        r.Cmd = (c.mergePropertiesFrom m).Cmd ∧
        r.Fix = (c.mergePropertiesFrom m).Fix ∧
        r.Check = (c.mergePropertiesFrom m).Check ∧
        r.Install = (c.mergePropertiesFrom m).Install ∧
        r.Gotool = (c.mergePropertiesFrom m).Gotool ∧
        r.Godep = (c.mergePropertiesFrom m).Godep ∧
        r.Each = (c.mergePropertiesFrom m).Each) := by
  refine ⟨rfl, rfl, rfl, ?_, ?_, ?_, ?_, ?_, ?_, ?_, ?_⟩
  · cases hg : c.Godep <;> simp [check.mergePropertiesFrom, hg]
  · intro f g hf hg
    cases f
    simp [check.mergePropertiesFrom, mergeCheckCmd, hf, hg, nonEmptyStr, nonEmptyStrArr,
      List.length_eq_zero]
  · intro f g hf hg
    cases f
    simp [check.mergePropertiesFrom, mergeCheckCmd, hf, hg, nonEmptyStr, nonEmptyStrArr,
      List.length_eq_zero]
  · intro f g hf hg
    cases f
    simp [check.mergePropertiesFrom, mergeCheckCmd, hf, hg, nonEmptyStr, nonEmptyStrArr,
      List.length_eq_zero]
  · intro e1 e2 h1 h2
    cases e1
    simp [check.mergePropertiesFrom, mergeEachFileLister, h1, h2, nonEmptyStr,
      nonEmptyStrArr, List.length_eq_zero]
  · intro hf
    simp [check.mergePropertiesFrom, mergeCheckCmd, hf]
  · intro hf
    cases hc : c.Fix <;> simp [check.mergePropertiesFrom, mergeCheckCmd, hf, hc]
  · intro macroMap hm
    by_cases hv : (c.mergePropertiesFrom m).validateDecoded = none
    · exact ⟨{ c.mergePropertiesFrom m with
          validateDecoded :=
            some ((getValidator m).MergePropertiesFrom (c.mergePropertiesFrom m).Validator) },
        by simp [copyFromMacro, hm, hv], rfl, rfl, rfl, rfl, rfl, rfl, rfl, rfl⟩
    · exact ⟨c.mergePropertiesFrom m,
        by simp [copyFromMacro, hm, hv], rfl, rfl, rfl, rfl, rfl, rfl, rfl, rfl⟩

/-- Witness for `merge_non_empty_wins`: `cMergeEx`'s empty `Fix.Cmd` is
taken from the macro while its non-empty `Fix.Args` survive; its empty
`Name` is filled from the macro; its non-empty `Cmd` wins; and
`copyFromMacro` yields exactly these fields. -/
theorem merge_non_empty_wins_witness :
    (cMergeEx.mergePropertiesFrom mMergeEx).Fix = some ⟨gs "fixcmd", [gs "-w", gs "$1"]⟩ ∧
    (cMergeEx.mergePropertiesFrom mMergeEx).Name = gs "macro name" ∧
    (cMergeEx.mergePropertiesFrom mMergeEx).Cmd = gs "mycmd" ∧
    ∃ r, copyFromMacro macroMapMergeEx cMergeEx = .ok r ∧
      r.Fix = some ⟨gs "fixcmd", [gs "-w", gs "$1"]⟩ := by
  have h := merge_non_empty_wins cMergeEx mMergeEx
  have hfix : (cMergeEx.mergePropertiesFrom mMergeEx).Fix =
      some ⟨gs "fixcmd", [gs "-w", gs "$1"]⟩ := by
    have := h.2.2.2.2.1 ⟨[], [gs "-w", gs "$1"]⟩ ⟨gs "fixcmd", [gs "shadowed"]⟩ rfl rfl
    simpa using this
  refine ⟨hfix, by have := h.1; simpa using this, by have := h.2.1; simpa using this, ?_⟩
  obtain ⟨r, hr, _, _, hrfix, _⟩ := h.2.2.2.2.2.2.2.2.2.2 macroMapMergeEx (by decide)
  exact ⟨r, hr, hrfix.trans hfix⟩

/-- C7 (amended): after macro resolution, a check whose own validator
configuration decodes to a coverage validator keeps it; a check whose
configuration decodes to an `emptyValidator` — including an explicitly
declared plain or `returncode` validator, not only an absent one — takes
the macro's validator as the base with the check's raw configuration
layered on top; in particular a check with no validator configuration gets
exactly the macro's validator. -/
theorem macro_validator_resolution (macroMap : List Char → Option check) (c m : check)
    (hm : macroMap c.Macro = some m) (hmac : c.Macro ≠ []) :
    ∃ r, mainResolveCheck macroMap c = .ok r ∧
      (∀ cv, getValidator c = .coverV cv → r.validateDecoded = some (.coverV cv)) ∧
      (∀ msgs allOut, getValidator c = .emptyV msgs allOut →
        r.validateDecoded = some ((getValidator m).MergePropertiesFrom c.Validator)) ∧
      (c.Validator = none → r.validateDecoded = some (getValidator m)) := by
  have hres : mainResolveCheck macroMap c =
      copyFromMacro macroMap { c with validateDecoded := some (getValidator c) } := by
    unfold mainResolveCheck
    rw [if_pos hmac]
  cases hgv : getValidator c with
  | emptyV msgs allOut =>
    refine ⟨{ ({ c with validateDecoded := some (getValidator c) } : check).mergePropertiesFrom m
          with validateDecoded := some ((getValidator m).MergePropertiesFrom c.Validator) },
      ?_, ?_, ?_, ?_⟩
    · rw [hres]
      simp [copyFromMacro, hm, check.mergePropertiesFrom, hgv, isEmptyValidatorKind]
    · intro cv hcv
      exact absurd hcv (by simp)
    · intro msgs' allOut' _
      rfl
    · intro hnone
      show some ((getValidator m).MergePropertiesFrom c.Validator) = some (getValidator m)
      rw [hnone]
      rfl
  | coverV cv =>
    refine ⟨({ c with validateDecoded := some (getValidator c) } : check).mergePropertiesFrom m,
      ?_, ?_, ?_, ?_⟩
    · rw [hres]
      simp [copyFromMacro, hm, check.mergePropertiesFrom, hgv, isEmptyValidatorKind]
    · intro cv' hcv
      cases hcv
      show (if isEmptyValidatorKind (some (getValidator c)) = true then none
        else some (getValidator c)) = some (.coverV cv)
      rw [hgv]
      rfl
    · intro msgs allOut hcv
      exact absurd hcv (by simp)
    · intro hnone
      simp [getValidator, hnone] at hgv

set_option maxRecDepth 10000 in
/-- C7 (counterexample): a check that declares its own validator — type
`returncode`, decoding to `emptyV [] true` — does NOT keep it when it
references a macro: resolution replaces it with the macro's coverage
validator. -/
theorem own_validator_not_kept_counterexample :
    getValidator cReturncodeEx = .emptyV [] true ∧
    (mainResolveCheck macroMapCoverEx cReturncodeEx).map (fun r => r.validateDecoded) =
      .ok (some (.coverV ⟨50, []⟩)) ∧
    (cmdValidator.coverV ⟨50, []⟩ ≠ .emptyV [] true) := by
  refine ⟨by decide, by decide, by decide⟩

set_option maxRecDepth 10000 in
/-- Witness for `macro_validator_resolution`: a check with no validator of
its own resolves to exactly the macro's coverage validator. -/
theorem macro_validator_resolution_witness :
    (mainResolveCheck macroMapCoverEx cNoValEx).map (fun r => r.validateDecoded) =
      .ok (some (getValidator mCoverEx)) := by
  obtain ⟨r, hr, _, _, hnone⟩ :=
    macro_validator_resolution macroMapCoverEx cNoValEx mCoverEx (by decide) (by decide)
  rw [hr]
  simp only [Except.map]
  rw [hnone (by decide)]

/-- C5 (counterexample): under the godep route the first prepended argument
is the literal `go`, not the check's original command name (`gofmt` here) —
the original command name appears nowhere in the wrapped invocation. -/
theorem godep_prepends_go_counterexample :
    routedInvocation true cGodepEx [gs "-l", gs "a.go"] =
      (gs "godep", [gs "go", gs "-l", gs "a.go"]) ∧
    cGodepEx.Cmd = gs "gofmt" ∧
    ¬ (gs "gofmt") ∈ (routedInvocation true cGodepEx [gs "-l", gs "a.go"]).2 := by
  refine ⟨by decide, by decide, by decide⟩

/-- C5 (amended): when the check's godep flag is set and the `Godeps`
marker directory is present, the invocation runs through the `godep`
wrapper with the literal command name `go` prepended ahead of the resolved
arguments (the check's own command name is replaced, not prepended); when
the flag is unset or the marker is absent, the check's own command runs
with the arguments unchanged. -/
theorem godep_routing (godepDir : Bool) (c : check) (args : List (List Char)) :
    (c.Godep = some true → godepDir = true →
      routedInvocation godepDir c args = (gs "godep", gs "go" :: args)) ∧
    (¬ (c.Godep = some true ∧ godepDir = true) →
      routedInvocation godepDir c args = (c.Cmd, args)) := by
  constructor
  · intro h1 h2
    rw [routedInvocation, if_pos ⟨h1, h2 ▸ rfl⟩]
  · intro h
    rw [routedInvocation, if_neg ?_]
    intro hc
    exact h ⟨hc.1, by cases godepDir with | true => rfl | false => exact absurd hc.2 (by simp)⟩

/-- Witness for `godep_routing`: the godep-flagged `gofmt` check routes
through `godep go …` when the marker is present and runs `gofmt` untouched
when it is absent. -/
theorem godep_routing_witness :
    routedInvocation true cGodepEx [gs "-l"] = (gs "godep", [gs "go", gs "-l"]) ∧
    routedInvocation false cGodepEx [gs "-l"] = (gs "gofmt", [gs "-l"]) := by
  refine ⟨(godep_routing true cGodepEx [gs "-l"]).1 (by decide) rfl, ?_⟩
  rw [(godep_routing false cGodepEx [gs "-l"]).2 (by decide)]
  decide

/-- C10: a check with no lister runs against exactly the single implicit
target `.`, and substitution replaces exactly the template elements equal to
`$1` with `.`, leaving elements that merely contain `$1` untouched. -/
theorem no_lister_single_dot_target (fixMode godepDir : Bool)
    (runs : Nat → List Char → List (List Char) → RunOutcome) (c : check)
    (listerOut : RunOutcome) (hEach : c.Each = none) :
    runCheckResults fixMode godepDir runs c listerOut =
      [workerIteration fixMode godepDir runs c (gs ".")] ∧
    (∀ (args : List (List Char)) (i : Nat),
      (substArgs args (gs ".")).get? i =
        (args.get? i).map (fun a => if a = gs "$1" then gs "." else a)) ∧
    substArgs [gs "a$1b", gs "$1", gs "x"] (gs ".") = [gs "a$1b", gs ".", gs "x"] := by
  refine ⟨?_, ?_, by decide⟩
  · simp [runCheckResults, hEach]
  · intro args i
    simp [substArgs, List.get?_map]

/-- Witness for `no_lister_single_dot_target` on the listerless `gofmt`
check. -/
theorem no_lister_single_dot_target_witness :
    runCheckResults false false runsOkEx cNoEachEx ⟨[], [], none⟩ =
      [workerIteration false false runsOkEx cNoEachEx (gs ".")] ∧
    substArgs [gs "a$1b", gs "$1", gs "x"] (gs ".") = [gs "a$1b", gs ".", gs "x"] :=
  ⟨(no_lister_single_dot_target false false runsOkEx cNoEachEx ⟨[], [], none⟩ rfl).1,
   (no_lister_single_dot_target false false runsOkEx cNoEachEx ⟨[], [], none⟩ rfl).2.2⟩

/-- C4: the aggregator folds over the whole result stream (draining every
result) and returns exactly the error of the last failing result in drain
order — `nil` iff no result carries an error. -/
theorem checkStream_last_failure (results : List checkResult) :
    checkStream results = (results.filterMap (fun r => r.originalErr)).getLast? ∧
    (checkStream results = none ↔ ∀ r ∈ results, r.originalErr = none) := by
  have hmain : ∀ rs : List checkResult,
      checkStream rs = (rs.filterMap (fun r => r.originalErr)).getLast? := by
    intro rs
    induction rs using List.reverseRecOn with
    | nil => rfl
    | append_singleton l r ih =>
      show (l ++ [r]).foldl _ none = _
      rw [List.foldl_append]
      cases hr : r.originalErr with
      | some e =>
        simp [checkStream, List.filterMap_append, hr, List.getLast?_concat] at ih ⊢
      | none =>
        simp [checkStream, List.filterMap_append, hr] at ih ⊢
        exact ih
  refine ⟨hmain results, ?_⟩
  rw [hmain results]
  constructor
  · intro h r hmem
    cases hr : r.originalErr with
    | none => rfl
    | some e =>
      exfalso
      have hne : results.filterMap (fun r => r.originalErr) ≠ [] := by
        intro hnil
        have := List.filterMap_eq_nil_iff.mp hnil r hmem
        rw [hr] at this
        exact Option.noConfusion this
      rw [List.getLast?_eq_none_iff] at h
      exact hne h
  · intro h
    rw [List.getLast?_eq_none_iff]
    apply List.filterMap_eq_nil_iff.mpr
    intro r hmem
    exact h r hmem

/-- C6: with successful enumeration the engine emits exactly one result per
target, in target order; each target sees at least one and at most two
attempts; the second attempt happens exactly when fix mode is on, a `fix`
template exists and the first attempt failed; with fix mode off the single
first attempt stands; and the emitted result is the last attempt's. -/
theorem runCheck_results_and_retry (fixMode godepDir : Bool)
    (runs : Nat → List Char → List (List Char) → RunOutcome) (c : check)
    (listerOut : RunOutcome) :
    (∀ e, c.Each = some e → listerOut.procErr = none →
      runCheckResults fixMode godepDir runs c listerOut =
        (getParams e listerOut.stdout).map (workerIteration fixMode godepDir runs c) ∧
      (runCheckResults fixMode godepDir runs c listerOut).length =
        (getParams e listerOut.stdout).length) ∧
    (c.Each = none → (runCheckResults fixMode godepDir runs c listerOut).length = 1) ∧
    (∀ param, 1 ≤ (workerAttempts fixMode godepDir runs c param).length ∧
      (workerAttempts fixMode godepDir runs c param).length ≤ 2) ∧
    (∀ param, (workerAttempts fixMode godepDir runs c param).length = 2 ↔
      (fixMode = true ∧ c.Fix.isSome = true ∧
        (innerCheckIteration fixMode godepDir (runs 0) c param).originalErr.isSome = true)) ∧
    (∀ param, fixMode = false →
      workerAttempts fixMode godepDir runs c param =
        [innerCheckIteration fixMode godepDir (runs 0) c param]) ∧
    (∀ param, (workerAttempts fixMode godepDir runs c param).getLast? =
      some (workerIteration fixMode godepDir runs c param)) := by
  refine ⟨?_, ?_, ?_, ?_, ?_, ?_⟩
  · intro e hEach hOk
    constructor
    · simp [runCheckResults, hEach, hOk]
    · simp [runCheckResults, hEach, hOk]
  · intro hEach
    simp [runCheckResults, hEach]
  · intro param
    unfold workerAttempts
    by_cases h : fixMode = true ∧ c.Fix.isSome = true ∧
        (innerCheckIteration fixMode godepDir (runs 0) c param).originalErr.isSome = true
    · obtain ⟨h1, h2, h3⟩ := h
      subst h1
      simp [h2, h3]
    · simp only [h, if_neg h]
      simp
  · intro param
    unfold workerAttempts
    by_cases h : fixMode = true ∧ c.Fix.isSome = true ∧
        (innerCheckIteration fixMode godepDir (runs 0) c param).originalErr.isSome = true
    · obtain ⟨h1, h2, h3⟩ := h
      subst h1
      simp [h2, h3]
    · simp [h]
  · intro param hfix
    unfold workerAttempts
    rw [if_neg]
    intro hc
    rw [hfix] at hc
    exact Bool.false_ne_true hc.1
  · intro param
    unfold workerAttempts workerIteration
    by_cases h : fixMode = true ∧ c.Fix.isSome = true ∧
        (innerCheckIteration fixMode godepDir (runs 0) c param).originalErr.isSome = true
    · obtain ⟨h1, h2, h3⟩ := h
      subst h1
      simp [h2, h3]
    · simp [h]

/-- Witness for `runCheck_results_and_retry`: two listed targets give two
results, and with fix mode on and a failing first attempt the target is
attempted exactly twice. -/
theorem runCheck_results_and_retry_witness :
    runCheckResults true false runsFailOnceEx cFixEx ⟨gs "a.go\nb.go", [], none⟩ =
      (getParams ⟨gs "git", [gs "ls-files"], []⟩ (gs "a.go\nb.go")).map
        (workerIteration true false runsFailOnceEx cFixEx) ∧
    (runCheckResults true false runsFailOnceEx cFixEx ⟨gs "a.go\nb.go", [], none⟩).length =
      (getParams ⟨gs "git", [gs "ls-files"], []⟩ (gs "a.go\nb.go")).length ∧
    (workerAttempts true false runsFailOnceEx cFixEx (gs "a.go")).length = 2 := by
  have h := runCheck_results_and_retry true false runsFailOnceEx cFixEx
    ⟨gs "a.go\nb.go", [], none⟩
  have henum := h.1 ⟨gs "git", [gs "ls-files"], []⟩ (by decide) rfl
  refine ⟨henum.1, henum.2, ?_⟩
  exact (h.2.2.2.1 (gs "a.go")).mpr ⟨rfl, by decide, by decide⟩
